import Mathlib

/-!
Verification of the network-diagnostics helper (`src/main.py`).

The module has three pieces of logic:
* `detect_bottlenecks` (lines 111-131): a single left-to-right pass over
  `(hop, latency)` pairs flagging "high latency" and "sudden increase";
* the traceroute line parser inside `trace_site` (lines 100-108): per line,
  `re.match(r"\s*(\d+)\s+.*?((?:<)?\d+(?:\.\d+)?)\s*ms", line)` followed by
  `int(...)` and `float(group2.lstrip("<"))`;
* the ping output parser inside `ping_site` (lines 76-86):
  `re.search(r"Average = (\d+(?:\.\d+)?)ms", output)` on Windows,
  `re.search(r"= [^/]+/([0-9.]+)/", output)` on POSIX, then `float(...)`
  guarded by `try/except ValueError`.

Latencies (Python floats holding decimal literals) are modelled as rationals;
hop numbers (`int(...)` of a digit run) as naturals.  The concrete regular
expressions are embedded as deterministic scanners; determinism is justified
case by case: every backtracking alternative of these patterns places a
character that immediately refutes the required continuation (shrinking a
greedy `\d+` leaves a digit where `ms` or `/` is required, dropping the
fractional branch leaves a dot, shrinking `[^/]+` or `[0-9.]+` leaves a
non-`/` character), so maximal munch plus leftmost-start search computes
exactly the Python match.
-/

/-- Python `\d` on the characters at hand: an ASCII decimal digit. -/
def pyIsDigit (c : Char) : Bool :=
  decide ('0' ≤ c ∧ c ≤ '9')

/-- Python `\s` on the characters at hand: ASCII whitespace. -/
def pyIsSpace (c : Char) : Bool :=
  c == ' ' || c == '\t' || c == '\n' || c == '\x0b' || c == '\x0c' || c == '\r'

/-- Value of a run of decimal digits, as `int(...)` computes it. -/
def digitsVal (ds : List Char) : ℕ :=
  ds.foldl (fun a c => 10 * a + (c.toNat - 48)) 0

/-- Value `float(...)` returns on a string of digits holding at most one
dot and at least one digit (the only shapes it ever receives here). -/
def pyFloatOfMatch (cs : List Char) : ℚ :=
  let ip := cs.takeWhile (fun c => !(c == '.'))
  match cs.dropWhile (fun c => !(c == '.')) with
  | '.' :: fp => (digitsVal ip : ℚ) + (digitsVal fp : ℚ) / ((10 : ℚ) ^ fp.length)
  | _ => (digitsVal ip : ℚ)

/-- `float(...)` on text drawn from `[0-9.]+`, with failure: Python raises
`ValueError` (mapped to `none` by the caller's `except` branch) unless the
text has at least one digit and at most one dot. -/
def pyFloat (cs : List Char) : Option ℚ :=
  if cs.all (fun c => pyIsDigit c || c == '.') && cs.any pyIsDigit &&
      decide (cs.count '.' ≤ 1) then
    some (pyFloatOfMatch cs)
  else none

/-- Line boundary recognised by Python `str.splitlines`. -/
def isLineBreak (c : Char) : Bool :=
  c == '\n' || c == '\r' || c == '\x0b' || c == '\x0c' || c == '\x1c' ||
    c == '\x1d' || c == '\x1e' || c == '\x85' || c == '\u2028' || c == '\u2029'

/-- Accumulator pass of `str.splitlines`: `\r\n` is one boundary, a final
fragment without a trailing boundary is still emitted, a trailing boundary
adds no empty line. -/
def splitlinesAux : List Char → List Char → List (List Char)
  | acc, [] => if acc.isEmpty then [] else [acc.reverse]
  | acc, '\r' :: '\n' :: rest => acc.reverse :: splitlinesAux [] rest
  | acc, c :: rest =>
    if isLineBreak c then acc.reverse :: splitlinesAux [] rest
    else splitlinesAux (c :: acc) rest

/-- Python `output.splitlines()` (line 101). -/
def pySplitlines (cs : List Char) : List (List Char) :=
  splitlinesAux [] cs

/-- Match of `((?:<)?\d+(?:\.\d+)?)\s*ms` anchored at the head of `cs`,
returning the text of the capture group.  Greedy digit runs never shrink in
a successful Python match of this pattern (shrinking leaves a digit or a dot
where `\s*ms` must begin), so maximal munch is exact. -/
def matchLatencyAt (cs : List Char) : Option (List Char) :=
  let pr :=
    match cs with
    | '<' :: r => ((['<'] : List Char), r)
    | r => (([] : List Char), r)
  let ds := pr.2.takeWhile pyIsDigit
  let rest1 := pr.2.dropWhile pyIsDigit
  if ds.isEmpty then none
  else
    let fr :=
      match rest1 with
      | '.' :: r =>
        let fd := r.takeWhile pyIsDigit
        if fd.isEmpty then (([] : List Char), rest1)
        else ('.' :: fd, r.dropWhile pyIsDigit)
      | _ => (([] : List Char), rest1)
    match fr.2.dropWhile pyIsSpace with
    | 'm' :: 's' :: _ => some (pr.1 ++ ds ++ fr.1)
    | _ => none

/-- Leftmost position at which the lazy `.*?` of the hop-line pattern lets
the latency group match: try each start position left to right. -/
def findLatency : List Char → Option (List Char)
  | [] => none
  | c :: rest =>
    match matchLatencyAt (c :: rest) with
    | some g => some g
    | none => findLatency rest

/-- One loop iteration of `trace_site` (lines 103-107):
`re.match(r"\s*(\d+)\s+.*?((?:<)?\d+(?:\.\d+)?)\s*ms", line)`, then
`int(group1)` and `float(group2.lstrip("<"))`.  The anchored `\s*` and the
group `(\d+)` take their maximal runs (shrinking leaves a whitespace
character under `\d`, or a digit under `\s`), `\s+` demands one whitespace
character after the hop digits, and the group search effectively starts
after it (the group cannot begin on whitespace); `float` cannot fail on the
matched text, so it is the total `pyFloatOfMatch`. -/
def parseHopLine (line : List Char) : Option (ℕ × ℚ) :=
  let afterWs := line.dropWhile pyIsSpace
  let hopDigits := afterWs.takeWhile pyIsDigit
  let afterHop := afterWs.dropWhile pyIsDigit
  if hopDigits.isEmpty then none
  else
    match afterHop with
    | c :: rest =>
      if pyIsSpace c then
        match findLatency rest with
        | some g =>
          some (digitsVal hopDigits,
            pyFloatOfMatch (g.dropWhile (fun x => x == '<')))
        | none => none
      else none
    | [] => none

/-- Parsing part of `trace_site` (lines 100-108): fold over the lines,
appending one `(hop, latency)` pair per matching line. -/
def trace_parse (output : List Char) : List (ℕ × ℚ) :=
  (pySplitlines output).foldl
    (fun hops line =>
      match parseHopLine line with
      | some hl => hops ++ [hl]
      | none => hops) []

/-- Match of the POSIX ping pattern `= [^/]+/([0-9.]+)/` anchored at the
head of `cs`, returning the capture group.  `[^/]+` and `[0-9.]+` take
their maximal runs: shrinking either leaves a character of the same class
where `/` must follow. -/
def matchPingPosixAt : List Char → Option (List Char)
  | '=' :: ' ' :: rest =>
    let mid := rest.takeWhile (fun c => !(c == '/'))
    let rest1 := rest.dropWhile (fun c => !(c == '/'))
    if mid.isEmpty then none
    else
      match rest1 with
      | '/' :: rest2 =>
        let g := rest2.takeWhile (fun c => pyIsDigit c || c == '.')
        let rest3 := rest2.dropWhile (fun c => pyIsDigit c || c == '.')
        if g.isEmpty then none
        else
          match rest3 with
          | '/' :: _ => some g
          | _ => none
      | _ => none
  | _ => none

/-- `re.search` of the POSIX ping pattern: leftmost matching start. -/
def searchPingPosix : List Char → Option (List Char)
  | [] => none
  | c :: rest =>
    match matchPingPosixAt (c :: rest) with
    | some g => some g
    | none => searchPingPosix rest

/-- POSIX branch of `ping_site` (lines 79-86): search, then `float(...)`
with `except ValueError: return None`. -/
def ping_parse_posix (output : List Char) : Option ℚ :=
  match searchPingPosix output with
  | some g => pyFloat g
  | none => none

/-- Match of the Windows ping pattern `Average = (\d+(?:\.\d+)?)ms`
anchored at the head of `cs`, returning the capture group. -/
def matchPingWindowsAt : List Char → Option (List Char)
  | 'A' :: 'v' :: 'e' :: 'r' :: 'a' :: 'g' :: 'e' :: ' ' :: '=' :: ' ' :: rest =>
    let ds := rest.takeWhile pyIsDigit
    let rest1 := rest.dropWhile pyIsDigit
    if ds.isEmpty then none
    else
      let fr :=
        match rest1 with
        | '.' :: r =>
          let fd := r.takeWhile pyIsDigit
          if fd.isEmpty then (([] : List Char), rest1)
          else ('.' :: fd, r.dropWhile pyIsDigit)
        | _ => (([] : List Char), rest1)
      match fr.2 with
      | 'm' :: 's' :: _ => some (ds ++ fr.1)
      | _ => none
  | _ => none

/-- `re.search` of the Windows ping pattern: leftmost matching start. -/
def searchPingWindows : List Char → Option (List Char)
  | [] => none
  | c :: rest =>
    match matchPingWindowsAt (c :: rest) with
    | some g => some g
    | none => searchPingWindows rest

/-- Windows branch of `ping_site` (lines 76-86): search, then `float(...)`
with `except ValueError: return None`. -/
def ping_parse_windows (output : List Char) : Option ℚ :=
  match searchPingWindows output with
  | some g => pyFloat g
  | none => none

/-- Latency threshold default of `detect_bottlenecks` (`threshold=100.0`). -/
def defaultThreshold : ℚ := 100

/-- Delta default of `detect_bottlenecks` (`delta=50.0`). -/
def defaultDelta : ℚ := 50

/-- Test `previous is not None and latency - previous > delta` (line 128). -/
def suddenRise (delta : ℚ) (previous : Option ℚ) (latency : ℚ) : Bool :=
  match previous with
  | some p => decide (latency - p > delta)
  | none => false

/-- Loop body of `detect_bottlenecks` (lines 123-130): `previous` is the
state carried across iterations, each hop appends its flagged entries. -/
def detectAux (threshold delta : ℚ) :
    Option ℚ → List (ℕ × ℚ) → List (ℕ × ℚ × String)
  | _, [] => []
  | previous, (hop, latency) :: rest =>
    ((if latency > threshold then [(hop, latency, "high latency")] else []) ++
      (if suddenRise delta previous latency then
        [(hop, latency, "sudden increase")] else [])) ++
      detectAux threshold delta (some latency) rest

/-- `detect_bottlenecks(hops, threshold, delta)` (lines 111-131). -/
def detect_bottlenecks (hops : List (ℕ × ℚ)) (threshold delta : ℚ) :
    List (ℕ × ℚ × String) :=
  detectAux threshold delta none hops

/-- Entries the spec says one hop emits, given the predecessor latency:
the "high latency" entry when `latencyMs > threshold`, then the
"sudden increase" entry when a predecessor exists and the jump exceeds
`delta`. -/
def emitBoth (threshold delta : ℚ) (previous : Option ℚ) (p : ℕ × ℚ) :
    List (ℕ × ℚ × String) :=
  (if p.2 > threshold then [(p.1, p.2, "high latency")] else []) ++
    (if suddenRise delta previous p.2 then
      [(p.1, p.2, "sudden increase")] else [])

/-- Predecessor latency of each position: `none` for the head, then the
previous latency, updated at every hop regardless of flagging. -/
def prevLatencies (hops : List (ℕ × ℚ)) : List (Option ℚ) :=
  none :: hops.map (fun p => some p.2)

/-- Latency state after the loop has consumed `hops`, starting from
`previous`. -/
def lastLatency (previous : Option ℚ) (hops : List (ℕ × ℚ)) : Option ℚ :=
  hops.foldl (fun _ p => some p.2) previous

theorem detectAux_eq_flatten (threshold delta : ℚ) (hops : List (ℕ × ℚ)) :
    ∀ previous : Option ℚ,
      detectAux threshold delta previous hops =
        (((previous :: hops.map (fun p => some p.2)).zip hops).map
          (fun q => emitBoth threshold delta q.1 q.2)).flatten := by
  induction hops with
  | nil => intro previous; simp [detectAux]
  | cons p rest ih =>
    intro previous
    obtain ⟨hop, latency⟩ := p
    simp only [detectAux, List.map_cons, List.zip_cons_cons, List.flatten_cons,
      ih (some latency)]
    rfl

theorem detectAux_mem (threshold delta : ℚ) (hops : List (ℕ × ℚ)) :
    ∀ (previous : Option ℚ) (b : ℕ × ℚ × String),
      b ∈ detectAux threshold delta previous hops → (b.1, b.2.1) ∈ hops := by
  induction hops with
  | nil => intro previous b h; simp [detectAux] at h
  | cons p rest ih =>
    intro previous b h
    obtain ⟨hop, latency⟩ := p
    simp only [detectAux, List.mem_append] at h
    rcases h with (h | h) | h
    · split_ifs at h <;> simp_all
    · split_ifs at h <;> simp_all
    · exact List.mem_cons_of_mem _ (ih (some latency) b h)

theorem detectAux_length (threshold delta : ℚ) (hops : List (ℕ × ℚ)) :
    ∀ previous : Option ℚ,
      (detectAux threshold delta previous hops).length ≤ 2 * hops.length := by
  induction hops with
  | nil => intro previous; simp [detectAux]
  | cons p rest ih =>
    intro previous
    obtain ⟨hop, latency⟩ := p
    have h2 := ih (some latency)
    simp only [detectAux, List.length_append, List.length_cons]
    split_ifs <;>
      simp only [List.length_cons, List.length_nil, List.length_append] <;>
      omega

theorem detectAux_append (threshold delta : ℚ) (xs ys : List (ℕ × ℚ)) :
    ∀ previous : Option ℚ,
      detectAux threshold delta previous (xs ++ ys) =
        detectAux threshold delta previous xs ++
          detectAux threshold delta (lastLatency previous xs) ys := by
  induction xs with
  | nil => intro previous; simp [detectAux, lastLatency]
  | cons p rest ih =>
    intro previous
    obtain ⟨hop, latency⟩ := p
    show detectAux threshold delta previous ((hop, latency) :: (rest ++ ys)) = _
    simp only [detectAux, ih (some latency), lastLatency, List.foldl_cons,
      List.append_assoc]

/-- C1: `detect_bottlenecks` emits, for each hop in input order, the
"high latency" entry exactly when latency exceeds the threshold and the
"sudden increase" entry exactly when a predecessor exists and the latency
jump exceeds delta, in that order when both fire, with the previous-latency
state advanced unconditionally: the output is exactly the concatenation of
`emitBoth` over each hop paired with its predecessor latency. -/
theorem claim_C1 (hops : List (ℕ × ℚ)) (threshold delta : ℚ) :
    detect_bottlenecks hops threshold delta =
      (((prevLatencies hops).zip hops).map
        (fun q => emitBoth threshold delta q.1 q.2)).flatten :=
  detectAux_eq_flatten threshold delta hops none

/-- C2: every entry of `detect_bottlenecks` carries a hop number that occurs
in the input hop sequence; the output is produced by the (pure) function
`detect_bottlenecks` of the hop list. -/
theorem claim_C2 (hops : List (ℕ × ℚ)) (threshold delta : ℚ)
    (b : ℕ × ℚ × String) (hb : b ∈ detect_bottlenecks hops threshold delta) :
    b.1 ∈ hops.map Prod.fst :=
  List.mem_map_of_mem Prod.fst (detectAux_mem threshold delta hops none b hb)

theorem claim_C2_witness :
    (1, (150 : ℚ), "high latency") ∈ detect_bottlenecks [(1, 150)] 100 50 ∧
      (1 : ℕ) ∈ [((1 : ℕ), (150 : ℚ))].map Prod.fst :=
  ⟨by decide, claim_C2 [(1, 150)] 100 50 (1, 150, "high latency") (by decide)⟩

/-- C8: the detector is deterministic — two runs on the same hop sequence
(with the same threshold and delta) give identical output lists. -/
theorem claim_C8 (hops hops' : List (ℕ × ℚ)) (threshold delta : ℚ)
    (h : hops = hops') :
    detect_bottlenecks hops threshold delta =
      detect_bottlenecks hops' threshold delta := by
  rw [h]

theorem claim_C8_witness :
    detect_bottlenecks [(1, 150)] 100 50 = detect_bottlenecks [(1, 150)] 100 50 :=
  claim_C8 [(1, 150)] [(1, 150)] 100 50 rfl

/-- C9: the detector is prefix-compositional — appending further hops only
appends further output, leaving the entries already emitted for the earlier
hops unchanged and in place. -/
theorem claim_C9 (hops ext : List (ℕ × ℚ)) (threshold delta : ℚ) :
    ∃ rest, detect_bottlenecks (hops ++ ext) threshold delta =
      detect_bottlenecks hops threshold delta ++ rest :=
  ⟨detectAux threshold delta (lastLatency none hops) ext,
    detectAux_append threshold delta hops ext none⟩

/-- C10: every bottleneck entry copies both the hop number and the latency
from an input element, and the output has at most two entries per input
element. -/
theorem claim_C10 (hops : List (ℕ × ℚ)) (threshold delta : ℚ) :
    (∀ b ∈ detect_bottlenecks hops threshold delta, (b.1, b.2.1) ∈ hops) ∧
      (detect_bottlenecks hops threshold delta).length ≤ 2 * hops.length :=
  ⟨fun b hb => detectAux_mem threshold delta hops none b hb,
    detectAux_length threshold delta hops none⟩

theorem claim_C10_witness :
    ((1 : ℕ), (150 : ℚ)) ∈ [((1 : ℕ), (150 : ℚ))] ∧
      (detect_bottlenecks [(1, 150)] 100 50).length ≤
        2 * [((1 : ℕ), (150 : ℚ))].length :=
  ⟨(claim_C10 [(1, 150)] 100 50).1 (1, 150, "high latency") (by decide),
    (claim_C10 [(1, 150)] 100 50).2⟩

theorem traceFold_eq (lines : List (List Char)) :
    ∀ acc : List (ℕ × ℚ),
      lines.foldl
        (fun hops line =>
          match parseHopLine line with
          | some hl => hops ++ [hl]
          | none => hops) acc =
        acc ++ lines.filterMap parseHopLine := by
  induction lines with
  | nil => intro acc; simp
  | cons line rest ih =>
    intro acc
    cases h : parseHopLine line <;>
      simp [h, ih, List.filterMap_cons, List.append_assoc]

theorem trace_parse_eq_filterMap (output : List Char) :
    trace_parse output = (pySplitlines output).filterMap parseHopLine := by
  unfold trace_parse
  simpa using traceFold_eq (pySplitlines output) []

theorem findLatency_first (cs g : List Char) (h : findLatency cs = some g) :
    ∃ k, matchLatencyAt (cs.drop k) = some g ∧
      ∀ j, j < k → matchLatencyAt (cs.drop j) = none := by
  induction cs with
  | nil => simp [findLatency] at h
  | cons c rest ih =>
    cases hm : matchLatencyAt (c :: rest) with
    | some g0 =>
      simp only [findLatency, hm] at h
      exact ⟨0, by simpa [h] using hm, fun j hj => absurd hj (by omega)⟩
    | none =>
      simp only [findLatency, hm] at h
      obtain ⟨k, h1, h2⟩ := ih h
      refine ⟨k + 1, by simpa using h1, fun j hj => ?_⟩
      cases j with
      | zero => simpa using hm
      | succ j => simpa using h2 j (by omega)

theorem pyFloatOfMatch_nonneg (cs : List Char) : 0 ≤ pyFloatOfMatch cs := by
  unfold pyFloatOfMatch
  split
  · positivity
  · positivity

theorem parseHopLine_nonneg (line : List Char) (p : ℕ × ℚ)
    (h : parseHopLine line = some p) : 0 ≤ p.2 := by
  simp only [parseHopLine] at h
  split_ifs at h
  split at h
  · split_ifs at h
    split at h
    · injection h with h2
      subst h2
      exact pyFloatOfMatch_nonneg _
    · exact absurd h (by simp)
  · exact absurd h (by simp)

/-- C3: the traceroute parser processes the lines of the text in order,
emitting one pair per matching line; the latency comes from the leftmost
position of the line at which the latency pattern matches; the line
`  3  10.0.0.1  12.345 ms` yields `(3, 12.345)`, a `<1 ms` latency yields
`1` (the `<` is stripped before numeric parsing), and the timeout line
`  5  * * *` yields no entry. -/
theorem claim_C3 :
    (∀ output, trace_parse output = (pySplitlines output).filterMap parseHopLine) ∧
      (∀ cs g, findLatency cs = some g →
        ∃ k, matchLatencyAt (cs.drop k) = some g ∧
          ∀ j, j < k → matchLatencyAt (cs.drop j) = none) ∧
      parseHopLine ("  3  10.0.0.1  12.345 ms".data) = some (3, 12.345) ∧
      parseHopLine ("  1  gateway  <1 ms".data) = some (1, 1) ∧
      parseHopLine ("  5  * * *".data) = none := by
  refine ⟨trace_parse_eq_filterMap, findLatency_first, ?_, by decide, by decide⟩
  have h : parseHopLine ("  3  10.0.0.1  12.345 ms".data) =
      some (digitsVal ['3'],
        (digitsVal ['1', '2'] : ℚ) + (digitsVal ['3', '4', '5'] : ℚ) / 10 ^ 3) := rfl
  have h1 : digitsVal ['3'] = 3 := by decide
  have h2 : digitsVal ['1', '2'] = 12 := by decide
  have h3 : digitsVal ['3', '4', '5'] = 345 := by decide
  rw [h, h1, h2, h3]
  simp only [Option.some.injEq, Prod.mk.injEq]
  norm_num

theorem claim_C3_witness :
    ∃ k, matchLatencyAt ((" 12 ms".data).drop k) = some ['1', '2'] ∧
      ∀ j, j < k → matchLatencyAt ((" 12 ms".data).drop j) = none :=
  claim_C3.2.1 (" 12 ms".data) ['1', '2'] (by decide)

/-- C4: on POSIX ping output the parser returns the average of the
`min/avg/max` summary — the value between the first and second `/` after the
`= ` — and an absent result when no summary-shaped text occurs. -/
theorem claim_C4 :
    ping_parse_posix (("PING google.com (142.250.72.14): 56 data bytes\n64 bytes from 142.250.72.14: icmp_seq=0 ttl=115 time=23.5 ms\n\n--- google.com ping statistics ---\n1 packets transmitted, 1 packets received, 0.0% packet loss\nrtt min/avg/max/mdev = 10.0/23.456/40.0/5.0 ms\n").data) = some 23.456 ∧
      ping_parse_posix (("ping: cannot resolve google.com: Unknown host\n").data) = none := by
  refine ⟨?_, by decide⟩
  have hs : searchPingPosix (("PING google.com (142.250.72.14): 56 data bytes\n64 bytes from 142.250.72.14: icmp_seq=0 ttl=115 time=23.5 ms\n\n--- google.com ping statistics ---\n1 packets transmitted, 1 packets received, 0.0% packet loss\nrtt min/avg/max/mdev = 10.0/23.456/40.0/5.0 ms\n").data) =
      some ['2', '3', '.', '4', '5', '6'] := by decide
  unfold ping_parse_posix
  rw [hs]
  show pyFloat ['2', '3', '.', '4', '5', '6'] = some 23.456
  have h : pyFloat ['2', '3', '.', '4', '5', '6'] =
      some ((digitsVal ['2', '3'] : ℚ) + (digitsVal ['4', '5', '6'] : ℚ) / 10 ^ 3) := rfl
  have h1 : digitsVal ['2', '3'] = 23 := by decide
  have h2 : digitsVal ['4', '5', '6'] = 456 := by decide
  rw [h, h1, h2]
  simp only [Option.some.injEq]
  norm_num

/-- C5: on Windows ping output the parser locates `Average = <number>ms`
(decimal point allowed in the number) and returns that number; the text
containing `Average = 17ms` yields `17`. -/
theorem claim_C5 :
    ping_parse_windows (("\nPinging google.com [142.250.72.14] with 32 bytes of data:\nReply from 142.250.72.14: bytes=32 time=17ms TTL=115\n\nPing statistics for 142.250.72.14:\n    Packets: Sent = 1, Received = 1, Lost = 0 (0% loss),\nApproximate round trip times in milli-seconds:\n    Minimum = 17ms, Maximum = 17ms, Average = 17ms\n").data) = some 17 ∧
      ping_parse_windows (("Average = 17.5ms").data) = some 17.5 := by
  refine ⟨by decide, ?_⟩
  have hs : searchPingWindows (("Average = 17.5ms").data) = some ['1', '7', '.', '5'] := by
    decide
  unfold ping_parse_windows
  rw [hs]
  show pyFloat ['1', '7', '.', '5'] = some 17.5
  have h : pyFloat ['1', '7', '.', '5'] =
      some ((digitsVal ['1', '7'] : ℚ) + (digitsVal ['5'] : ℚ) / 10 ^ 1) := rfl
  have h1 : digitsVal ['1', '7'] = 17 := by decide
  have h2 : digitsVal ['5'] = 5 := by decide
  rw [h, h1, h2]
  simp only [Option.some.injEq]
  norm_num

theorem claim_C6_counterexample :
    trace_parse (("0  5 ms").data) = [(0, 5)] ∧
      ¬ (∀ p ∈ trace_parse (("0  5 ms").data), 1 ≤ p.1) := by
  decide

/-- C6 (amended): every pair produced by the traceroute parser has a
non-negative latency and a hop number that is a natural number (possibly 0:
the hop-number group `(\d+)` accepts a zero digit run, so positivity does
not hold for every input text). -/
theorem claim_C6 (output : List Char) (p : ℕ × ℚ)
    (hp : p ∈ trace_parse output) : 0 ≤ p.2 ∧ (0 : ℤ) ≤ (p.1 : ℤ) := by
  rw [trace_parse_eq_filterMap] at hp
  obtain ⟨line, _, hline⟩ := List.mem_filterMap.mp hp
  exact ⟨parseHopLine_nonneg line p hline, by positivity⟩

theorem claim_C6_witness :
    ((1, (2 : ℚ)) ∈ trace_parse ((" 1  2 ms").data)) ∧
      (0 ≤ (2 : ℚ) ∧ (0 : ℤ) ≤ ((1 : ℕ) : ℤ)) :=
  ⟨by decide, claim_C6 ((" 1  2 ms").data) (1, 2) (by decide)⟩

/-- C7: the parsers are total functions into an optional value and a list:
the traceroute parser maps every text to the hop pairs of its matching
lines, silently dropping every non-matching line, and the ping parser maps
a failed pattern match or a failed numeric conversion (such as the
unconvertible `..` between the slashes) to an absent result. -/
theorem claim_C7 :
    (∀ output, trace_parse output = (pySplitlines output).filterMap parseHopLine) ∧
      ping_parse_posix (("round-trip min/avg/max = a/../b ms").data) = none ∧
      ping_parse_windows (("Average = ms\nAverage = 17..5ms\n").data) = none :=
  ⟨trace_parse_eq_filterMap, by decide, by decide⟩
